import Mathlib

/-!
Verification development for the `patisson_graphql` library.

The file embeds the two core components of the repository:

* `src/patisson_graphql/stmt_filter.py` — the fluent SQLAlchemy statement
  builder `Stmt`, which composes filter / order / pagination clauses on a
  query and keeps a human readable trace (`log_list`) of every clause applied;
* `src/patisson_graphql/selected_fields.py` — the GraphQL selection-tree
  extractor `selected_fields` / `_fields_from_selections`.

Python values passed as `Optional[Any]` arguments are modelled by the
inductive type `Val`, whose `truthy` function reproduces Python truthiness
for the value shapes the library works with (None, ints, strings, lists).
The SQLAlchemy `Select` expression is opaque to the builder; it is modelled
by the inductive `Query`, whose constructors record exactly which derived
expression each builder operation creates.  SQLAlchemy renders a compiled
statement with the SELECT list on the first line and every later clause on
a subsequent line; `Query.render` models that contract (each derived
expression appends a newline-prefixed fragment to the inner rendering),
which is all `Stmt.log` depends on.
-/

namespace PatissonGraphql

/-- Values of the host language as they appear at the builder's call sites:
`None`, integers, strings and lists. -/
inductive Val where
  | none
  | int (n : Int)
  | str (s : String)
  | list (l : List Val)

/-- Python truthiness (`if op:`) for `Val`: `None`, `0`, the empty string and
the empty list are falsy, everything else is truthy. -/
def Val.truthy : Val → Bool
  | .none => false
  | .int n => n != 0
  | .str s => s != ""
  | .list l => !l.isEmpty

/-- The single-quote character used by Python `repr` of strings. -/
def pyQuote : String := String.singleton (Char.ofNat 39)

mutual

/-- Python `repr(v)`, as used for elements when a list is formatted. -/
def Val.prepr : Val → String
  | .none => "None"
  | .int n => toString n
  | .str s => pyQuote ++ s ++ pyQuote
  | .list l => "[" ++ Val.preprList l ++ "]"

/-- Comma-separated `repr`s of the elements of a list, Python style. -/
def Val.preprList : List Val → String
  | [] => ""
  | [v] => Val.prepr v
  | v :: rest => Val.prepr v ++ ", " ++ Val.preprList rest

end

/-- Python `str(v)` — what an f-string interpolation `f"...\x7bv\x7d..."`
produces: strings are inserted verbatim, lists via their `repr` form. -/
def Val.pstr : Val → String
  | .none => "None"
  | .int n => toString n
  | .str s => s
  | .list l => "[" ++ Val.preprList l ++ "]"

/-- A SQLAlchemy `Column`: the builder only ever reads its `name`. -/
structure Column where
  name : String
deriving DecidableEq, Repr

/-- The predicate expressions the builder hands to `Select.filter` /
`Select.where`: comparisons, membership tests, relationship membership,
LIKE patterns and direct equality. -/
inductive Clause where
  | cmp (col : String) (sym : String) (v : Val)
  | inCl (col : String) (vs : Val)
  | notInCl (col : String) (vs : Val)
  | relIn (col : String) (vs : Val)
  | likeCl (col : String) (v : Val)
  | whereEq (col : String) (v : Val)

/-- The opaque SQLAlchemy `Select` expression: an initial statement plus the
derived expressions each builder operation produces (`filter`, `where`,
`order_by`, `limit`, `offset`).  The original expression is never mutated —
every operation wraps it in a new constructor. -/
inductive Query where
  | base (descr : String)
  | filtered (q : Query) (c : Clause)
  | whereQ (q : Query) (c : Clause)
  | orderBy (q : Query) (col : String)
  | limitQ (q : Query) (n : Int)
  | offsetQ (q : Query) (n : Int)

/-- Rendering of a clause inside the compiled SQL text. -/
def Clause.render : Clause → String
  | .cmp col sym v => col ++ " " ++ sym ++ " " ++ v.pstr
  | .inCl col vs => col ++ " IN " ++ vs.pstr
  | .notInCl col vs => col ++ " NOT IN " ++ vs.pstr
  | .relIn col vs => col ++ " ANY IN " ++ vs.pstr
  | .likeCl col v => col ++ " LIKE " ++ v.pstr
  | .whereEq col v => col ++ " = " ++ v.pstr

/-- Model of `str(select_expression)`: SQLAlchemy prints the base SELECT text
first and every clause added by a derived expression on its own later line,
so each constructor appends a newline-prefixed fragment. -/
def Query.render : Query → String
  | .base descr => descr
  | .filtered q c => q.render ++ ("\n" ++ ("WHERE " ++ c.render))
  | .whereQ q c => q.render ++ ("\n" ++ ("WHERE " ++ c.render))
  | .orderBy q col => q.render ++ ("\n" ++ ("ORDER BY " ++ col))
  | .limitQ q n => q.render ++ ("\n" ++ ("LIMIT " ++ toString n))
  | .offsetQ q n => q.render ++ ("\n" ++ ("OFFSET " ++ toString n))

/-- The builder state: the current statement and the trace of applied
operations (`self.stmt`, `self.log_list`). -/
structure Stmt where
  stmt : Query
  log_list : List String

/-- `Stmt.__init__`: wrap a statement with an empty trace. -/
def Stmt.init (stmt : Query) : Stmt :=
  { stmt := stmt, log_list := [] }

/-- `Stmt.__call__`: return the current statement. -/
def Stmt.call (s : Stmt) : Query :=
  s.stmt

/-- Characters of a string up to (excluding) the first newline. -/
def takeUntilNl : List Char → List Char
  | [] => []
  | c :: cs => if c = '\n' then [] else c :: takeUntilNl cs

/-- Python `s.split(chr(10), 1)[0]`: the text before the first newline, or
the whole string when it has none. -/
def splitFirstLine (s : String) : String :=
  String.mk (takeUntilNl s.data)

/-- `Stmt.log`: first line of the current statement's rendering, then each
trace entry prefixed by `pre` and terminated by a newline. -/
def Stmt.log (s : Stmt) (pre : String) : String :=
  s.log_list.foldl (fun acc i => acc ++ (pre ++ i ++ "\n"))
    (splitFirstLine s.stmt.render ++ "\n")

/-- `Stmt.lte_filter`. -/
def Stmt.lte_filter (s : Stmt) (column : Column) (op : Val) : Stmt :=
  if op.truthy then
    { stmt := .filtered s.stmt (.cmp column.name "<=" op),
      log_list := s.log_list ++ [column.name ++ " <= " ++ op.pstr] }
  else s

/-- `Stmt.gte_filter`. -/
def Stmt.gte_filter (s : Stmt) (column : Column) (op : Val) : Stmt :=
  if op.truthy then
    { stmt := .filtered s.stmt (.cmp column.name ">=" op),
      log_list := s.log_list ++ [column.name ++ " >= " ++ op.pstr] }
  else s

/-- `Stmt.lt_filter`. -/
def Stmt.lt_filter (s : Stmt) (column : Column) (op : Val) : Stmt :=
  if op.truthy then
    { stmt := .filtered s.stmt (.cmp column.name "<" op),
      log_list := s.log_list ++ [column.name ++ " < " ++ op.pstr] }
  else s

/-- `Stmt.gt_filter`. -/
def Stmt.gt_filter (s : Stmt) (column : Column) (op : Val) : Stmt :=
  if op.truthy then
    { stmt := .filtered s.stmt (.cmp column.name ">" op),
      log_list := s.log_list ++ [column.name ++ " > " ++ op.pstr] }
  else s

/-- `Stmt.eq_filter`. -/
def Stmt.eq_filter (s : Stmt) (column : Column) (op : Val) : Stmt :=
  if op.truthy then
    { stmt := .filtered s.stmt (.cmp column.name "==" op),
      log_list := s.log_list ++ [column.name ++ " == " ++ op.pstr] }
  else s

/-- `Stmt.con_filter`. -/
def Stmt.con_filter (s : Stmt) (column : Column) (ops : Val) : Stmt :=
  if ops.truthy then
    { stmt := .filtered s.stmt (.inCl column.name ops),
      log_list := s.log_list ++ [column.name ++ " in " ++ ops.pstr] }
  else s

/-- `Stmt.not_con_filter`. -/
def Stmt.not_con_filter (s : Stmt) (column : Column) (ops : Val) : Stmt :=
  if ops.truthy then
    { stmt := .filtered s.stmt (.notInCl column.name ops),
      log_list := s.log_list ++ [column.name ++ " not in " ++ ops.pstr] }
  else s

/-- `Stmt.con_model_filter`. -/
def Stmt.con_model_filter (s : Stmt) (column : Column) (ops : Val) : Stmt :=
  if ops.truthy then
    { stmt := .filtered s.stmt (.relIn column.name ops),
      log_list := s.log_list ++ [column.name ++ " relationship in " ++ ops.pstr] }
  else s

/-- `Stmt.like_filter`. -/
def Stmt.like_filter (s : Stmt) (column : Column) (op : Val) : Stmt :=
  if op.truthy then
    { stmt := .filtered s.stmt (.likeCl column.name op),
      log_list := s.log_list ++ [column.name ++ " like " ++ op.pstr] }
  else s

/-- `Stmt.where_filter`. -/
def Stmt.where_filter (s : Stmt) (column : Column) (op : Val) : Stmt :=
  if op.truthy then
    { stmt := .whereQ s.stmt (.whereEq column.name op),
      log_list := s.log_list ++ [column.name ++ " where " ++ op.pstr] }
  else s

/-- `Stmt.ordered_by`: the skip test is `column is not None`, not
truthiness. -/
def Stmt.ordered_by (s : Stmt) (column : Option Column) : Stmt :=
  match column with
  | Option.none => s
  | some c =>
    { stmt := .orderBy s.stmt c.name,
      log_list := s.log_list ++ ["order by " ++ c.name] }

/-- `Stmt.limit`: the argument is `Optional[int]` and the skip test is
truthiness, so both `None` and `0` are skipped. -/
def Stmt.limit (s : Stmt) (num : Option Int) : Stmt :=
  match num with
  | Option.none => s
  | some n =>
    if n != 0 then
      { stmt := .limitQ s.stmt n,
        log_list := s.log_list ++ ["limit " ++ toString n] }
    else s

/-- `Stmt.offset`: same truthiness skip test as `Stmt.limit`. -/
def Stmt.offset (s : Stmt) (num : Option Int) : Stmt :=
  match num with
  | Option.none => s
  | some n =>
    if n != 0 then
      { stmt := .offsetQ s.stmt n,
        log_list := s.log_list ++ ["offset " ++ toString n] }
    else s

/-- A builder operation together with its call arguments, used to reason
about arbitrary chains of `Stmt` method calls. -/
inductive Op where
  | lte (c : Column) (v : Val)
  | gte (c : Column) (v : Val)
  | lt (c : Column) (v : Val)
  | gt (c : Column) (v : Val)
  | eq (c : Column) (v : Val)
  | con (c : Column) (v : Val)
  | notCon (c : Column) (v : Val)
  | conModel (c : Column) (v : Val)
  | like (c : Column) (v : Val)
  | whereF (c : Column) (v : Val)
  | orderedBy (c : Option Column)
  | limitO (n : Option Int)
  | offsetO (n : Option Int)

/-- Run one builder operation, dispatching to the corresponding `Stmt`
method. -/
def applyOp (s : Stmt) : Op → Stmt
  | .lte c v => s.lte_filter c v
  | .gte c v => s.gte_filter c v
  | .lt c v => s.lt_filter c v
  | .gt c v => s.gt_filter c v
  | .eq c v => s.eq_filter c v
  | .con c v => s.con_filter c v
  | .notCon c v => s.not_con_filter c v
  | .conModel c v => s.con_model_filter c v
  | .like c v => s.like_filter c v
  | .whereF c v => s.where_filter c v
  | .orderedBy c => s.ordered_by c
  | .limitO n => s.limit n
  | .offsetO n => s.offset n

/-- Run a chain of builder operations left to right. -/
def applyOps (s : Stmt) (ops : List Op) : Stmt :=
  ops.foldl applyOp s

/-- Whether the operation's argument passes its skip test, so that the
operation really applies a clause: truthiness for every filter and for
`limit` / `offset`, an `is not None` check for `ordered_by`. -/
def Op.applied : Op → Bool
  | .lte _ v | .gte _ v | .lt _ v | .gt _ v | .eq _ v => v.truthy
  | .con _ v | .notCon _ v | .conModel _ v => v.truthy
  | .like _ v | .whereF _ v => v.truthy
  | .orderedBy c => c.isSome
  | .limitO (some n) => n != 0
  | .limitO Option.none => false
  | .offsetO (some n) => n != 0
  | .offsetO Option.none => false

/-- The trace entry the operation appends when it applies. -/
def Op.entry : Op → String
  | .lte c v => c.name ++ " <= " ++ v.pstr
  | .gte c v => c.name ++ " >= " ++ v.pstr
  | .lt c v => c.name ++ " < " ++ v.pstr
  | .gt c v => c.name ++ " > " ++ v.pstr
  | .eq c v => c.name ++ " == " ++ v.pstr
  | .con c v => c.name ++ " in " ++ v.pstr
  | .notCon c v => c.name ++ " not in " ++ v.pstr
  | .conModel c v => c.name ++ " relationship in " ++ v.pstr
  | .like c v => c.name ++ " like " ++ v.pstr
  | .whereF c v => c.name ++ " where " ++ v.pstr
  | .orderedBy (some c) => "order by " ++ c.name
  | .orderedBy Option.none => ""
  | .limitO (some n) => "limit " ++ toString n
  | .limitO Option.none => ""
  | .offsetO (some n) => "offset " ++ toString n
  | .offsetO Option.none => ""

/-!
Embedding of `src/patisson_graphql/selected_fields.py`.

A GraphQL selection tree (the `graphql-core` AST the extractor consumes) is
a list of selection nodes; a node is a field (optionally with a nested
selection set), an inline fragment, a named-fragment spread, or — to model
the contract violation the extractor checks for — a node of any other,
unsupported kind, identified by the name of its AST class.

`info.fragments` maps fragment names to fragment definitions; the spec
guarantees resolution always succeeds (fragments are pre-validated by the
engine), so the map is modelled as a total function from names to the
fragment's selection list.  The Python recursion is bounded only by the
interpreter's recursion limit, which a cyclic fragment reference would hit;
the embedding makes that explicit with a fuel parameter that decreases at
each fragment resolution and reports `recursionLimit` when exhausted. -/

/-- A node of the parsed selection tree. -/
inductive SelectionNode where
  | field (name : String) (selection_set : Option (List SelectionNode))
  | inlineFragment (selection_set : List SelectionNode)
  | fragmentSpread (name : String)
  | unsupported (typeName : String)

/-- The ways `_fields_from_selections` can fail: the `NotImplementedError`
raised on an unsupported node kind, or the interpreter recursion limit
(reachable only through a cyclic fragment reference). -/
inductive ExtractError where
  | unsupportedKind (msg : String)
  | recursionLimit
deriving DecidableEq, Repr

/-- `_fields_from_selections`: walk the selection list in order, collecting
field names; recurse into field sub-selections and fragments (which are
transparent — they contribute no name of their own); raise on any other
node kind.  `frags` is `info.fragments` (name to selection list of the
fragment's definition). -/
def fieldsFromSelections (fuel : Nat) (frags : String → List SelectionNode) :
    List SelectionNode → Except ExtractError (List String)
  | [] => .ok []
  | .field name Option.none :: rest =>
    match fieldsFromSelections fuel frags rest with
    | .error e => .error e
    | .ok b => .ok (name :: b)
  | .field name (some ss) :: rest =>
    match fieldsFromSelections fuel frags ss with
    | .error e => .error e
    | .ok a =>
      match fieldsFromSelections fuel frags rest with
      | .error e => .error e
      | .ok b => .ok (name :: (a ++ b))
  | .inlineFragment ss :: rest =>
    match fieldsFromSelections fuel frags ss with
    | .error e => .error e
    | .ok a =>
      match fieldsFromSelections fuel frags rest with
      | .error e => .error e
      | .ok b => .ok (a ++ b)
  | .fragmentSpread name :: rest =>
    match fuel with
    | 0 => .error .recursionLimit
    | f + 1 =>
      match fieldsFromSelections f frags (frags name) with
      | .error e => .error e
      | .ok a =>
        match fieldsFromSelections (f + 1) frags rest with
        | .error e => .error e
        | .ok b => .ok (a ++ b)
  | .unsupported typeName :: _ =>
    .error (.unsupportedKind ("field type " ++ typeName ++ " not supported"))
termination_by sels => (fuel, sizeOf sels)

/-- A top-level `FieldNode` from `info.field_nodes`: the loop in
`selected_fields` only reads its optional `selection_set`. -/
structure FieldNodeT where
  name : String
  selection_set : Option (List SelectionNode)

/-- The parts of `GraphQLResolveInfo` the extractor reads: the operation's
root field nodes and the fragment-definition mapping. -/
structure ResolveInfo where
  field_nodes : List FieldNodeT
  fragments : String → List SelectionNode

/-- Insertion into the model of a Python `set` of strings: a duplicate-free
list; a new element is recorded once, an already present one is dropped.
Iteration order of a Python set is unspecified, so any fixed order is a
faithful model; first-insertion order is used. -/
def setInsert (s : List String) (x : String) : List String :=
  if x ∈ s then s else s ++ [x]

/-- `names.update(xs)`: insert every element of `xs`. -/
def setUpdate (s : List String) (xs : List String) : List String :=
  xs.foldl setInsert s

/-- The loop of `selected_fields`: for each root field node, skip it when it
has no selection set, else extract its names and add them to the set. -/
def selectedNamesAux (fuel : Nat) (info : ResolveInfo) :
    List FieldNodeT → List String → Except ExtractError (List String)
  | [], names => .ok names
  | node :: rest, names =>
    match node.selection_set with
    | Option.none => selectedNamesAux fuel info rest names
    | some ss =>
      match fieldsFromSelections fuel info.fragments ss with
      | .error e => .error e
      | .ok fs => selectedNamesAux fuel info rest (setUpdate names fs)

/-- The deduplicated set of selected field names computed by
`selected_fields` before the `getattr` mapping. -/
def selectedFieldNames (fuel : Nat) (info : ResolveInfo) :
    Except ExtractError (List String) :=
  selectedNamesAux fuel info info.field_nodes []

/-- `selected_fields`: map each surviving name onto the target model's
attribute of the same name.  `getattr(model, field)` is modelled by
applying `model`, a total function from names to attribute handles (the
spec assumes the schema and the model are consistent). -/
def selected_fields {α : Type} (fuel : Nat) (info : ResolveInfo)
    (model : String → α) : Except ExtractError (List α) :=
  match selectedFieldNames fuel info with
  | .error e => .error e
  | .ok names => .ok (names.map model)

/-- Same traversal as `fieldsFromSelections` but without the set insertion:
every extracted name in extraction order, duplicates kept.  Used to state
what "the names reachable in the tree" are. -/
def collectedNames (fuel : Nat) (info : ResolveInfo) :
    List FieldNodeT → Except ExtractError (List String)
  | [] => .ok []
  | node :: rest =>
    match node.selection_set with
    | Option.none => collectedNames fuel info rest
    | some ss =>
      match fieldsFromSelections fuel info.fragments ss with
      | .error e => .error e
      | .ok fs =>
        match collectedNames fuel info rest with
        | .error e => .error e
        | .ok tail => .ok (fs ++ tail)

/-- Whether a selection list contains (without resolving fragment spreads)
a node of an unsupported kind. -/
def hasUnsupported : List SelectionNode → Bool
  | [] => false
  | .field _ Option.none :: rest => hasUnsupported rest
  | .field _ (some ss) :: rest => hasUnsupported ss || hasUnsupported rest
  | .inlineFragment ss :: rest => hasUnsupported ss || hasUnsupported rest
  | .fragmentSpread _ :: rest => hasUnsupported rest
  | .unsupported _ :: _ => true

/-- The fragment names spread anywhere in a selection list (without
resolving them). -/
def spreadNames : List SelectionNode → List String
  | [] => []
  | .field _ Option.none :: rest => spreadNames rest
  | .field _ (some ss) :: rest => spreadNames ss ++ spreadNames rest
  | .inlineFragment ss :: rest => spreadNames ss ++ spreadNames rest
  | .fragmentSpread n :: rest => n :: spreadNames rest
  | .unsupported _ :: rest => spreadNames rest

/-- Acyclicity of the fragment-definition mapping, witnessed by a rank
function: every fragment spread inside a fragment's body refers to a
fragment of strictly smaller rank.  Pre-validated GraphQL documents have no
fragment cycles, so such a rank exists for them. -/
def RankOk (frags : String → List SelectionNode) (r : String → Nat) : Prop :=
  ∀ n m, m ∈ spreadNames (frags n) → r m < r n

/-! Theorems. -/

/-- C1: each comparison-family operation (`lte_filter`, `gte_filter`,
`lt_filter`, `gt_filter`, `eq_filter`) applies the clause
`column (cmp) argument` and appends the single trace entry
`column.name ++ " (op) " ++ argument` when the argument is truthy, and is
the identity on the builder when the argument is falsy. -/
theorem comparison_family_spec (s : Stmt) (column : Column) (op : Val) :
    (op.truthy = true →
      s.lte_filter column op =
        { stmt := .filtered s.stmt (.cmp column.name "<=" op),
          log_list := s.log_list ++ [column.name ++ " <= " ++ op.pstr] } ∧
      s.gte_filter column op =
        { stmt := .filtered s.stmt (.cmp column.name ">=" op),
          log_list := s.log_list ++ [column.name ++ " >= " ++ op.pstr] } ∧
      s.lt_filter column op =
        { stmt := .filtered s.stmt (.cmp column.name "<" op),
          log_list := s.log_list ++ [column.name ++ " < " ++ op.pstr] } ∧
      s.gt_filter column op =
        { stmt := .filtered s.stmt (.cmp column.name ">" op),
          log_list := s.log_list ++ [column.name ++ " > " ++ op.pstr] } ∧
      s.eq_filter column op =
        { stmt := .filtered s.stmt (.cmp column.name "==" op),
          log_list := s.log_list ++ [column.name ++ " == " ++ op.pstr] }) ∧
    (op.truthy = false →
      s.lte_filter column op = s ∧
      s.gte_filter column op = s ∧
      s.lt_filter column op = s ∧
      s.gt_filter column op = s ∧
      s.eq_filter column op = s) := by
  constructor <;> intro h <;>
    refine ⟨?_, ?_, ?_, ?_, ?_⟩ <;>
    simp [Stmt.lte_filter, Stmt.gte_filter, Stmt.lt_filter, Stmt.gt_filter,
      Stmt.eq_filter, h]

/-- Witness for C1 at concrete inputs: `18` is truthy and applies, `0` is
falsy and is skipped. -/
theorem comparison_family_spec_witness :
    ((Stmt.init (Query.base "q")).lte_filter ⟨"age"⟩ (Val.int 18) =
      { stmt := .filtered (.base "q") (.cmp "age" "<=" (Val.int 18)),
        log_list := ["age <= 18"] } ∧
     (Stmt.init (Query.base "q")).gte_filter ⟨"age"⟩ (Val.int 18) =
      { stmt := .filtered (.base "q") (.cmp "age" ">=" (Val.int 18)),
        log_list := ["age >= 18"] } ∧
     (Stmt.init (Query.base "q")).lt_filter ⟨"age"⟩ (Val.int 18) =
      { stmt := .filtered (.base "q") (.cmp "age" "<" (Val.int 18)),
        log_list := ["age < 18"] } ∧
     (Stmt.init (Query.base "q")).gt_filter ⟨"age"⟩ (Val.int 18) =
      { stmt := .filtered (.base "q") (.cmp "age" ">" (Val.int 18)),
        log_list := ["age > 18"] } ∧
     (Stmt.init (Query.base "q")).eq_filter ⟨"age"⟩ (Val.int 18) =
      { stmt := .filtered (.base "q") (.cmp "age" "==" (Val.int 18)),
        log_list := ["age == 18"] }) ∧
    ((Stmt.init (Query.base "q")).lte_filter ⟨"age"⟩ (Val.int 0) =
        Stmt.init (Query.base "q") ∧
     (Stmt.init (Query.base "q")).gte_filter ⟨"age"⟩ (Val.int 0) =
        Stmt.init (Query.base "q") ∧
     (Stmt.init (Query.base "q")).lt_filter ⟨"age"⟩ (Val.int 0) =
        Stmt.init (Query.base "q") ∧
     (Stmt.init (Query.base "q")).gt_filter ⟨"age"⟩ (Val.int 0) =
        Stmt.init (Query.base "q") ∧
     (Stmt.init (Query.base "q")).eq_filter ⟨"age"⟩ (Val.int 0) =
        Stmt.init (Query.base "q")) :=
  ⟨(comparison_family_spec (Stmt.init (Query.base "q")) ⟨"age"⟩ (Val.int 18)).1 rfl,
   (comparison_family_spec (Stmt.init (Query.base "q")) ⟨"age"⟩ (Val.int 0)).2 rfl⟩

/-- C2: `con_filter` and `not_con_filter` are the identity when the
argument collection is empty or `None`, and otherwise apply the membership
predicate and append the single trace entry
`column.name ++ " in " ++ list-repr` / `column.name ++ " not in " ++ list-repr`. -/
theorem membership_family_spec (s : Stmt) (column : Column) (l : List Val) :
    (s.con_filter column (Val.list []) = s ∧
     s.con_filter column Val.none = s ∧
     s.not_con_filter column (Val.list []) = s ∧
     s.not_con_filter column Val.none = s) ∧
    (l ≠ [] →
      s.con_filter column (Val.list l) =
        { stmt := .filtered s.stmt (.inCl column.name (Val.list l)),
          log_list := s.log_list ++ [column.name ++ " in " ++ (Val.list l).pstr] } ∧
      s.not_con_filter column (Val.list l) =
        { stmt := .filtered s.stmt (.notInCl column.name (Val.list l)),
          log_list := s.log_list ++
            [column.name ++ " not in " ++ (Val.list l).pstr] }) := by
  constructor
  · refine ⟨?_, ?_, ?_, ?_⟩ <;>
      simp [Stmt.con_filter, Stmt.not_con_filter, Val.truthy]
  · intro h
    have ht : (Val.list l).truthy = true := by
      simp [Val.truthy]
      exact h
    constructor <;> simp [Stmt.con_filter, Stmt.not_con_filter, ht]

/-- Witness for C2 at a concrete non-empty list. -/
theorem membership_family_spec_witness :
    (Stmt.init (Query.base "q")).con_filter ⟨"age"⟩
        (Val.list [Val.int 18, Val.int 25, Val.int 30]) =
      { stmt := .filtered (.base "q")
          (.inCl "age" (Val.list [Val.int 18, Val.int 25, Val.int 30])),
        log_list := ["age in [18, 25, 30]"] } ∧
    (Stmt.init (Query.base "q")).not_con_filter ⟨"age"⟩
        (Val.list [Val.int 18, Val.int 25, Val.int 30]) =
      { stmt := .filtered (.base "q")
          (.notInCl "age" (Val.list [Val.int 18, Val.int 25, Val.int 30])),
        log_list := ["age not in [18, 25, 30]"] } :=
  (membership_family_spec (Stmt.init (Query.base "q")) ⟨"age"⟩
      [Val.int 18, Val.int 25, Val.int 30]).2 (by simp)

/-- C3: `ordered_by Option.none` is the identity, and `ordered_by (some c)`
applies the ORDER BY clause and appends a trace entry for every column,
the skip test being an identity-with-None check rather than truthiness. -/
theorem ordered_by_spec (s : Stmt) (c : Column) :
    s.ordered_by Option.none = s ∧
    s.ordered_by (some c) =
      { stmt := .orderBy s.stmt c.name,
        log_list := s.log_list ++ ["order by " ++ c.name] } :=
  ⟨rfl, rfl⟩

/-- C4: `limit (some 0)` and `offset (some 0)` are the identity (zero is
falsy), while every nonzero integer applies the clause and appends
`"limit n"` / `"offset n"`. -/
theorem limit_offset_spec (s : Stmt) (n : Int) :
    (s.limit (some 0) = s ∧ s.offset (some 0) = s) ∧
    (n ≠ 0 →
      s.limit (some n) =
        { stmt := .limitQ s.stmt n,
          log_list := s.log_list ++ ["limit " ++ toString n] } ∧
      s.offset (some n) =
        { stmt := .offsetQ s.stmt n,
          log_list := s.log_list ++ ["offset " ++ toString n] }) := by
  constructor
  · exact ⟨rfl, rfl⟩
  · intro h
    constructor <;> simp [Stmt.limit, Stmt.offset, h]

/-- Witness for C4: `limit 1` and `offset 1` apply. -/
theorem limit_offset_spec_witness :
    (Stmt.init (Query.base "q")).limit (some 1) =
      { stmt := .limitQ (.base "q") 1, log_list := ["limit 1"] } ∧
    (Stmt.init (Query.base "q")).offset (some 1) =
      { stmt := .offsetQ (.base "q") 1, log_list := ["offset 1"] } :=
  (limit_offset_spec (Stmt.init (Query.base "q")) 1).2 (by decide)

/-- C10: `where_filter` and `like_filter` skip on every falsy argument —
`None`, `0`, the empty string and the empty list all leave the query and
the trace unchanged. -/
theorem where_like_falsy_spec (s : Stmt) (column : Column) (v : Val) :
    v.truthy = false →
      s.where_filter column v = s ∧ s.like_filter column v = s := by
  intro h
  constructor <;> simp [Stmt.where_filter, Stmt.like_filter, h]

/-- Witness for C10: `where_filter` and `like_filter` given the present
value `0` silently apply nothing. -/
theorem where_like_falsy_spec_witness :
    (Val.int 0).truthy = false ∧
    ((Stmt.init (Query.base "q")).where_filter ⟨"age"⟩ (Val.int 0) =
        Stmt.init (Query.base "q") ∧
     (Stmt.init (Query.base "q")).like_filter ⟨"age"⟩ (Val.int 0) =
        Stmt.init (Query.base "q")) :=
  ⟨rfl, where_like_falsy_spec (Stmt.init (Query.base "q")) ⟨"age"⟩ (Val.int 0) rfl⟩

/-- Effect of one builder operation on the trace: an applied operation
appends exactly its entry, a skipped one appends nothing. -/
theorem applyOp_log (s : Stmt) (o : Op) :
    (applyOp s o).log_list =
      s.log_list ++ (if o.applied then [o.entry] else []) := by
  cases o with
  | lte c v =>
    by_cases h : v.truthy <;>
      simp [applyOp, Stmt.lte_filter, Op.applied, Op.entry, h]
  | gte c v =>
    by_cases h : v.truthy <;>
      simp [applyOp, Stmt.gte_filter, Op.applied, Op.entry, h]
  | lt c v =>
    by_cases h : v.truthy <;>
      simp [applyOp, Stmt.lt_filter, Op.applied, Op.entry, h]
  | gt c v =>
    by_cases h : v.truthy <;>
      simp [applyOp, Stmt.gt_filter, Op.applied, Op.entry, h]
  | eq c v =>
    by_cases h : v.truthy <;>
      simp [applyOp, Stmt.eq_filter, Op.applied, Op.entry, h]
  | con c v =>
    by_cases h : v.truthy <;>
      simp [applyOp, Stmt.con_filter, Op.applied, Op.entry, h]
  | notCon c v =>
    by_cases h : v.truthy <;>
      simp [applyOp, Stmt.not_con_filter, Op.applied, Op.entry, h]
  | conModel c v =>
    by_cases h : v.truthy <;>
      simp [applyOp, Stmt.con_model_filter, Op.applied, Op.entry, h]
  | like c v =>
    by_cases h : v.truthy <;>
      simp [applyOp, Stmt.like_filter, Op.applied, Op.entry, h]
  | whereF c v =>
    by_cases h : v.truthy <;>
      simp [applyOp, Stmt.where_filter, Op.applied, Op.entry, h]
  | orderedBy c =>
    cases c <;> simp [applyOp, Stmt.ordered_by, Op.applied, Op.entry]
  | limitO n =>
    cases n with
    | none => simp [applyOp, Stmt.limit, Op.applied]
    | some m =>
      by_cases h : m = 0 <;> simp [applyOp, Stmt.limit, Op.applied, Op.entry, h]
  | offsetO n =>
    cases n with
    | none => simp [applyOp, Stmt.offset, Op.applied]
    | some m =>
      by_cases h : m = 0 <;> simp [applyOp, Stmt.offset, Op.applied, Op.entry, h]

/-- C5: after any chain of builder operations the trace equals the previous
trace followed by the entries of exactly the applied operations, in
application order (append-only, no reordering, no deduplication); from a
fresh builder its length is the number of applied operations. -/
theorem trace_invariant (s : Stmt) (ops : List Op) (q0 : Query) :
    (applyOps s ops).log_list =
      s.log_list ++ (ops.filter Op.applied).map Op.entry ∧
    (applyOps (Stmt.init q0) ops).log_list.length =
      (ops.filter Op.applied).length := by
  have main : ∀ (ops : List Op) (s : Stmt),
      (applyOps s ops).log_list =
        s.log_list ++ (ops.filter Op.applied).map Op.entry := by
    intro ops
    induction ops with
    | nil => intro s; simp [applyOps]
    | cons o rest ih =>
      intro s
      have hstep : applyOps s (o :: rest) = applyOps (applyOp s o) rest := rfl
      rw [hstep, ih (applyOp s o), applyOp_log]
      by_cases h : o.applied <;> simp [List.filter_cons, h]
  refine ⟨main ops s, ?_⟩
  rw [main ops (Stmt.init q0)]
  simp [Stmt.init]

/-- Everything before a newline inserted after a prefix is unchanged. -/
theorem takeUntilNl_append (xs ys : List Char) :
    takeUntilNl (xs ++ '\n' :: ys) = takeUntilNl xs := by
  induction xs with
  | nil => simp [takeUntilNl]
  | cons c cs ih =>
    by_cases h : c = '\n' <;> simp [takeUntilNl, h, ih]

/-- Appending newline-prefixed text does not change the first line. -/
theorem splitFirstLine_append_nl (a t : String) :
    splitFirstLine (a ++ ("\n" ++ t)) = splitFirstLine a := by
  unfold splitFirstLine
  have hd : (a ++ ("\n" ++ t)).data = a.data ++ '\n' :: t.data := by
    rw [String.data_append, String.data_append]
    rfl
  rw [hd, takeUntilNl_append]

/-- One builder operation never changes the first rendered line of the
statement: it either keeps the statement or wraps it in a derived
expression that renders on later lines. -/
theorem applyOp_firstLine (s : Stmt) (o : Op) :
    splitFirstLine ((applyOp s o).stmt.render) =
      splitFirstLine (s.stmt.render) := by
  cases o with
  | lte c v =>
    by_cases h : v.truthy <;>
      simp [applyOp, Stmt.lte_filter, h, Query.render, splitFirstLine_append_nl]
  | gte c v =>
    by_cases h : v.truthy <;>
      simp [applyOp, Stmt.gte_filter, h, Query.render, splitFirstLine_append_nl]
  | lt c v =>
    by_cases h : v.truthy <;>
      simp [applyOp, Stmt.lt_filter, h, Query.render, splitFirstLine_append_nl]
  | gt c v =>
    by_cases h : v.truthy <;>
      simp [applyOp, Stmt.gt_filter, h, Query.render, splitFirstLine_append_nl]
  | eq c v =>
    by_cases h : v.truthy <;>
      simp [applyOp, Stmt.eq_filter, h, Query.render, splitFirstLine_append_nl]
  | con c v =>
    by_cases h : v.truthy <;>
      simp [applyOp, Stmt.con_filter, h, Query.render, splitFirstLine_append_nl]
  | notCon c v =>
    by_cases h : v.truthy <;>
      simp [applyOp, Stmt.not_con_filter, h, Query.render,
        splitFirstLine_append_nl]
  | conModel c v =>
    by_cases h : v.truthy <;>
      simp [applyOp, Stmt.con_model_filter, h, Query.render,
        splitFirstLine_append_nl]
  | like c v =>
    by_cases h : v.truthy <;>
      simp [applyOp, Stmt.like_filter, h, Query.render, splitFirstLine_append_nl]
  | whereF c v =>
    by_cases h : v.truthy <;>
      simp [applyOp, Stmt.where_filter, h, Query.render,
        splitFirstLine_append_nl]
  | orderedBy c =>
    cases c <;>
      simp [applyOp, Stmt.ordered_by, Query.render, splitFirstLine_append_nl]
  | limitO n =>
    cases n with
    | none => simp [applyOp, Stmt.limit]
    | some m =>
      by_cases h : m = 0 <;>
        simp [applyOp, Stmt.limit, h, Query.render, splitFirstLine_append_nl]
  | offsetO n =>
    cases n with
    | none => simp [applyOp, Stmt.offset]
    | some m =>
      by_cases h : m = 0 <;>
        simp [applyOp, Stmt.offset, h, Query.render, splitFirstLine_append_nl]

/-- A chain of builder operations never changes the first rendered line. -/
theorem applyOps_firstLine (ops : List Op) (s : Stmt) :
    splitFirstLine ((applyOps s ops).stmt.render) =
      splitFirstLine (s.stmt.render) := by
  induction ops generalizing s with
  | nil => rfl
  | cons o rest ih =>
    have hstep : applyOps s (o :: rest) = applyOps (applyOp s o) rest := rfl
    rw [hstep, ih (applyOp s o), applyOp_firstLine]

/-- Trace entries laid out one per line, each prefixed by `pre` and
terminated by a newline. -/
def joinLines (pre : String) : List String → String
  | [] => ""
  | i :: rest => (pre ++ i ++ "\n") ++ joinLines pre rest

/-- The fold inside `Stmt.log` produces the initial text followed by the
lines of the trace. -/
theorem foldl_log_lines (l : List String) (pre init : String) :
    l.foldl (fun acc i => acc ++ (pre ++ i ++ "\n")) init =
      init ++ joinLines pre l := by
  induction l generalizing init with
  | nil => simp [joinLines, String.append_empty]
  | cons i rest ih =>
    simp only [List.foldl_cons, joinLines, ih]
    rw [String.append_assoc]

/-- C6: for every builder reachable from a fresh builder over `q0` and any
separator, `log` returns the first line of the original (pre-any-filter)
query rendering, followed by each trace entry in order, each prefixed by
the separator and on its own line. -/
theorem log_spec (q0 : Query) (ops : List Op) (pre : String) :
    (applyOps (Stmt.init q0) ops).log pre =
      (splitFirstLine q0.render ++ "\n") ++
        joinLines pre ((applyOps (Stmt.init q0) ops).log_list) := by
  unfold Stmt.log
  rw [foldl_log_lines, applyOps_firstLine]
  rfl

/-- Extraction never succeeds on a selection list that contains an
unsupported node: the raised error always propagates to the caller. -/
theorem fieldsFromSelections_no_ok (fuel : Nat)
    (frags : String → List SelectionNode) (sels : List SelectionNode) :
    hasUnsupported sels = true →
      ∀ l, fieldsFromSelections fuel frags sels ≠ .ok l := by
  induction fuel, frags, sels using fieldsFromSelections.induct with
  | case1 fuel frags =>
    intro hu
    simp [hasUnsupported] at hu
  | case2 fuel frags name rest e he ih =>
    intro hu l
    simp [fieldsFromSelections, he]
  | case3 fuel frags name rest b hb ih =>
    intro hu l
    simp only [hasUnsupported] at hu
    exact absurd hb (ih hu b)
  | case4 fuel frags name ss rest e he ih =>
    intro hu l
    simp [fieldsFromSelections, he]
  | case5 fuel frags name ss rest b hb e he ihss ihrest =>
    intro hu l
    simp [fieldsFromSelections, hb, he]
  | case6 fuel frags name ss rest b hb b2 hb2 ihss ihrest =>
    intro hu l
    simp only [hasUnsupported, Bool.or_eq_true] at hu
    rcases hu with hu | hu
    · exact absurd hb (ihss hu b)
    · exact absurd hb2 (ihrest hu b2)
  | case7 fuel frags ss rest e he ih =>
    intro hu l
    simp [fieldsFromSelections, he]
  | case8 fuel frags ss rest b hb e he ihss ihrest =>
    intro hu l
    simp [fieldsFromSelections, hb, he]
  | case9 fuel frags ss rest b hb b2 hb2 ihss ihrest =>
    intro hu l
    simp only [hasUnsupported, Bool.or_eq_true] at hu
    rcases hu with hu | hu
    · exact absurd hb (ihss hu b)
    · exact absurd hb2 (ihrest hu b2)
  | case10 frags name rest =>
    intro hu l
    simp [fieldsFromSelections]
  | case11 frags name rest f e he ih =>
    intro hu l
    simp [fieldsFromSelections, he]
  | case12 frags name rest f b hb e he ihbody ihrest =>
    intro hu l
    simp [fieldsFromSelections, hb, he]
  | case13 frags name rest f b hb b2 hb2 ihbody ihrest =>
    intro hu l
    simp only [hasUnsupported] at hu
    exact absurd hb2 (ihrest hu b2)
  | case14 fuel frags typeName tail =>
    intro hu l
    simp [fieldsFromSelections]

/-- When the fragment mapping is acyclic (it admits a rank) and the fuel
dominates the rank of every fragment spread in the list, extraction never
hits the recursion limit. -/
theorem fieldsFromSelections_no_recursionLimit (fuel : Nat)
    (frags : String → List SelectionNode) (sels : List SelectionNode) :
    ∀ r : String → Nat, RankOk frags r →
      (∀ m ∈ spreadNames sels, r m < fuel) →
      fieldsFromSelections fuel frags sels ≠ .error .recursionLimit := by
  induction fuel, frags, sels using fieldsFromSelections.induct with
  | case1 fuel frags =>
    intro r hr hb
    simp [fieldsFromSelections]
  | case2 fuel frags name rest e he ih =>
    intro r hr hb
    have h1 := ih r hr (fun m hm => hb m (by simpa [spreadNames] using hm))
    rw [he] at h1
    simpa [fieldsFromSelections, he] using h1
  | case3 fuel frags name rest b hb ih =>
    intro r hr hbnd
    simp [fieldsFromSelections, hb]
  | case4 fuel frags name ss rest e he ih =>
    intro r hr hb
    have h1 := ih r hr (fun m hm => hb m (by simp [spreadNames, hm]))
    rw [he] at h1
    simpa [fieldsFromSelections, he] using h1
  | case5 fuel frags name ss rest b hb e he ihss ihrest =>
    intro r hr hbnd
    have h1 := ihrest r hr (fun m hm => hbnd m (by simp [spreadNames, hm]))
    rw [he] at h1
    simpa [fieldsFromSelections, hb, he] using h1
  | case6 fuel frags name ss rest b hb b2 hb2 ihss ihrest =>
    intro r hr hbnd
    simp [fieldsFromSelections, hb, hb2]
  | case7 fuel frags ss rest e he ih =>
    intro r hr hb
    have h1 := ih r hr (fun m hm => hb m (by simp [spreadNames, hm]))
    rw [he] at h1
    simpa [fieldsFromSelections, he] using h1
  | case8 fuel frags ss rest b hb e he ihss ihrest =>
    intro r hr hbnd
    have h1 := ihrest r hr (fun m hm => hbnd m (by simp [spreadNames, hm]))
    rw [he] at h1
    simpa [fieldsFromSelections, hb, he] using h1
  | case9 fuel frags ss rest b hb b2 hb2 ihss ihrest =>
    intro r hr hbnd
    simp [fieldsFromSelections, hb, hb2]
  | case10 frags name rest =>
    intro r hr hb
    exact absurd (hb name (by simp [spreadNames])) (Nat.not_lt_zero _)
  | case11 frags name rest f e he ih =>
    intro r hr hb
    have hn : r name < f + 1 := hb name (by simp [spreadNames])
    have hbody : ∀ m ∈ spreadNames (frags name), r m < f := by
      intro m hm
      exact Nat.lt_of_lt_of_le (hr name m hm) (Nat.lt_succ_iff.mp hn)
    have h1 := ih r hr hbody
    rw [he] at h1
    simpa [fieldsFromSelections, he] using h1
  | case12 frags name rest f b hb e he ihbody ihrest =>
    intro r hr hbnd
    have h1 := ihrest r hr (fun m hm => hbnd m (by simp [spreadNames, hm]))
    rw [he] at h1
    simpa [fieldsFromSelections, hb, he] using h1
  | case13 frags name rest f b hb b2 hb2 ihbody ihrest =>
    intro r hr hbnd
    simp [fieldsFromSelections, hb, hb2]
  | case14 fuel frags typeName tail =>
    intro r hr hb
    simp [fieldsFromSelections]

/-- C9: extraction of a selection list containing a node of an unsupported
variant always halts with an error, never returning a (partial) result;
and whenever the fragment mapping is acyclic (as the engine's pre-validated
documents guarantee) and the fuel dominates the spread ranks, the
"unsupported selection kind" failure is the only error extraction can
produce. -/
theorem extractor_error_spec (frags : String → List SelectionNode)
    (sels : List SelectionNode) :
    (hasUnsupported sels = true →
      ∀ fuel l, fieldsFromSelections fuel frags sels ≠ .ok l) ∧
    (∀ (r : String → Nat) (fuel : Nat), RankOk frags r →
      (∀ m ∈ spreadNames sels, r m < fuel) →
      ∀ e, fieldsFromSelections fuel frags sels = .error e →
        ∃ msg, e = ExtractError.unsupportedKind msg) := by
  constructor
  · intro hu fuel l
    exact fieldsFromSelections_no_ok fuel frags sels hu l
  · intro r fuel hr hb e he
    cases e with
    | unsupportedKind msg => exact ⟨msg, rfl⟩
    | recursionLimit =>
      exact absurd he (fieldsFromSelections_no_recursionLimit fuel frags sels r hr hb)

/-- Witness for C9: a one-node list holding an unsupported `ListNode` is
rejected for every fuel, and with an empty fragment mapping (rank constant
zero) the resulting error is the `NotImplementedError` message. -/
theorem extractor_error_spec_witness :
    hasUnsupported [SelectionNode.unsupported "ListNode"] = true ∧
    fieldsFromSelections 1 (fun _ => []) [SelectionNode.unsupported "ListNode"] ≠
      .ok ["ListNode"] ∧
    (∃ msg, ExtractError.unsupportedKind "field type ListNode not supported" =
      ExtractError.unsupportedKind msg) :=
  ⟨by simp [hasUnsupported],
   (extractor_error_spec (fun _ => []) [SelectionNode.unsupported "ListNode"]).1
     (by simp [hasUnsupported]) 1 ["ListNode"],
   (extractor_error_spec (fun _ => []) [SelectionNode.unsupported "ListNode"]).2
     (fun _ => 0) 1 (fun n m hm => by simp [spreadNames] at hm)
     (fun m hm => by simp [spreadNames] at hm)
     (ExtractError.unsupportedKind "field type ListNode not supported")
     (by simp [fieldsFromSelections])⟩

/-- C8: fragments are transparent.  An inline fragment node contributes
exactly the names extracted from its sub-selection, and a named-fragment
reference contributes exactly the names of the selection list the
fragment-definition mapping resolves it to; neither node records a name of
its own. -/
theorem fragments_transparent_spec (frags : String → List SelectionNode)
    (ss rest : List SelectionNode) (n : String) (fuel : Nat) :
    (∀ a b, fieldsFromSelections fuel frags ss = .ok a →
      fieldsFromSelections fuel frags rest = .ok b →
      fieldsFromSelections fuel frags (SelectionNode.inlineFragment ss :: rest) =
        .ok (a ++ b)) ∧
    (∀ a b, fieldsFromSelections fuel frags (frags n) = .ok a →
      fieldsFromSelections (fuel + 1) frags rest = .ok b →
      fieldsFromSelections (fuel + 1) frags
        (SelectionNode.fragmentSpread n :: rest) = .ok (a ++ b)) := by
  constructor
  · intro a b h1 h2
    simp [fieldsFromSelections, h1, h2]
  · intro a b h1 h2
    simp [fieldsFromSelections, h1, h2]

/-- Fragment mapping used by the concrete extractor witnesses: `F` holds a
field `c`, `G` holds a field `a`, anything else is empty. -/
def exFrags : String → List SelectionNode := fun n =>
  if n = "F" then [SelectionNode.field "c" Option.none]
  else if n = "G" then [SelectionNode.field "a" Option.none]
  else []

/-- Witness for C8: an inline fragment over `b` and a spread of `F`
contribute exactly the wrapped names. -/
theorem fragments_transparent_spec_witness :
    fieldsFromSelections 1 exFrags
        (SelectionNode.inlineFragment [SelectionNode.field "b" Option.none] ::
          [SelectionNode.field "d" Option.none]) = .ok (["b"] ++ ["d"]) ∧
    fieldsFromSelections 2 exFrags
        (SelectionNode.fragmentSpread "F" ::
          [SelectionNode.field "d" Option.none]) = .ok (["c"] ++ ["d"]) :=
  ⟨(fragments_transparent_spec exFrags [SelectionNode.field "b" Option.none]
      [SelectionNode.field "d" Option.none] "F" 1).1 ["b"] ["d"]
      (by simp [fieldsFromSelections]) (by simp [fieldsFromSelections]),
   (fragments_transparent_spec exFrags [] [SelectionNode.field "d" Option.none]
      "F" 1).2 ["c"] ["d"]
      (by simp [exFrags, fieldsFromSelections])
      (by simp [fieldsFromSelections])⟩

/-- Membership in the set after one insertion. -/
theorem mem_setInsert (s : List String) (x y : String) :
    y ∈ setInsert s x ↔ y ∈ s ∨ y = x := by
  unfold setInsert
  split
  · rename_i h
    constructor
    · exact fun hy => Or.inl hy
    · rintro (hy | rfl)
      · exact hy
      · exact h
  · simp [List.mem_append]

/-- Insertion preserves freedom from duplicates. -/
theorem setInsert_nodup (s : List String) (x : String) (h : s.Nodup) :
    (setInsert s x).Nodup := by
  unfold setInsert
  split
  · exact h
  · rename_i hx
    simp [List.nodup_append, h, hx]

/-- Membership in the set after a bulk update. -/
theorem mem_setUpdate (xs : List String) :
    ∀ (s : List String) (y : String),
      (y ∈ setUpdate s xs ↔ y ∈ s ∨ y ∈ xs) := by
  induction xs with
  | nil => intro s y; simp [setUpdate]
  | cons x xs ih =>
    intro s y
    have hstep : setUpdate s (x :: xs) = setUpdate (setInsert s x) xs := rfl
    rw [hstep, ih (setInsert s x) y, mem_setInsert]
    simp [List.mem_cons]
    tauto

/-- Bulk update preserves freedom from duplicates. -/
theorem setUpdate_nodup (xs : List String) :
    ∀ s : List String, s.Nodup → (setUpdate s xs).Nodup := by
  induction xs with
  | nil => intro s h; exact h
  | cons x xs ih =>
    intro s h
    exact ih (setInsert s x) (setInsert_nodup s x h)

/-- The loop of `selected_fields` keeps the accumulated name set
duplicate-free and collects exactly the names reachable from the processed
nodes. -/
theorem selectedNamesAux_spec (fuel : Nat) (info : ResolveInfo) :
    ∀ (nodes : List FieldNodeT) (acc : List String), acc.Nodup →
      ∀ ns, selectedNamesAux fuel info nodes acc = .ok ns →
        ns.Nodup ∧ ∃ cs, collectedNames fuel info nodes = .ok cs ∧
          ∀ y, (y ∈ ns ↔ y ∈ acc ∨ y ∈ cs) := by
  intro nodes
  induction nodes with
  | nil =>
    intro acc hacc ns hns
    simp [selectedNamesAux] at hns
    subst hns
    exact ⟨hacc, [], by simp [collectedNames], by simp⟩
  | cons node rest ih =>
    intro acc hacc ns hns
    cases hss : node.selection_set with
    | none =>
      rw [selectedNamesAux] at hns
      simp only [hss] at hns
      obtain ⟨hnodup, cs, hcs, hmem⟩ := ih acc hacc ns hns
      exact ⟨hnodup, cs, by simp [collectedNames, hss, hcs], hmem⟩
    | some ss =>
      cases hfs : fieldsFromSelections fuel info.fragments ss with
      | error e =>
        rw [selectedNamesAux] at hns
        simp only [hss, hfs] at hns
        cases hns
      | ok fs =>
        rw [selectedNamesAux] at hns
        simp only [hss, hfs] at hns
        obtain ⟨hnodup, cs, hcs, hmem⟩ :=
          ih (setUpdate acc fs) (setUpdate_nodup fs acc hacc) ns hns
        refine ⟨hnodup, fs ++ cs, by simp [collectedNames, hss, hfs, hcs], ?_⟩
        intro y
        rw [hmem y, mem_setUpdate]
        simp [List.mem_append]
        tauto

/-- C7: the extractor deduplicates field names — whenever it succeeds, the
resolved name set is duplicate-free, contains exactly the names collected
(with multiplicity) from the selection trees, and `selected_fields` maps
each surviving name to the target model's attribute of that name. -/
theorem selected_fields_dedup {α : Type} (fuel : Nat) (info : ResolveInfo)
    (model : String → α) (ns : List String) :
    selectedFieldNames fuel info = .ok ns →
      ns.Nodup ∧
      selected_fields fuel info model = .ok (ns.map model) ∧
      ∃ cs, collectedNames fuel info info.field_nodes = .ok cs ∧
        ∀ y, (y ∈ ns ↔ y ∈ cs) := by
  intro h
  obtain ⟨hnodup, cs, hcs, hmem⟩ :=
    selectedNamesAux_spec fuel info info.field_nodes [] List.nodup_nil ns h
  refine ⟨hnodup, ?_, cs, hcs, ?_⟩
  · simp [selected_fields, h]
  · intro y
    have hy := hmem y
    simpa using hy

/-- Resolution metadata used by the C7 witness: one root field requesting
`a` twice, once directly and once through the named fragment `G`. -/
def exInfo : ResolveInfo :=
  { field_nodes := [⟨"q", some [SelectionNode.field "a" Option.none,
      SelectionNode.fragmentSpread "G"]⟩],
    fragments := exFrags }

/-- Witness for C7: the doubly reachable name `a` yields a one-element
set. -/
theorem selected_fields_dedup_witness :
    selectedFieldNames 1 exInfo = .ok ["a"] ∧
    (List.Nodup ["a"] ∧
     selected_fields 1 exInfo (fun y => y) = .ok ["a"] ∧
     ∃ cs, collectedNames 1 exInfo exInfo.field_nodes = .ok cs ∧
       ∀ y, (y ∈ ["a"] ↔ y ∈ cs)) := by
  have hbody : fieldsFromSelections 0 exFrags (exFrags "G") = .ok ["a"] := by
    simp [exFrags, fieldsFromSelections]
  have hsels : fieldsFromSelections 1 exFrags
      [SelectionNode.field "a" Option.none, SelectionNode.fragmentSpread "G"] =
      .ok ["a", "a"] := by
    simp [fieldsFromSelections, hbody]
  have h : selectedFieldNames 1 exInfo = .ok ["a"] := by
    simp [selectedFieldNames, selectedNamesAux, exInfo, hsels, setUpdate, setInsert]
  exact ⟨h, selected_fields_dedup 1 exInfo (fun y => y) ["a"] h⟩

end PatissonGraphql
